import Mathlib

/-!
Verification of the MoveNet pose pipeline (`src/body/movenet.ts`).

The embedding models JavaScript numbers as exact rationals (`ℚ`), except where
the source can produce the IEEE infinities (`Math.min()`/`Math.max()` over an
empty spread), which are modelled by the extended type `JNum`.  The module-level
mutable state of the source (the shared `keypoints` scratch array, the
`cachedBoxes` array and the `skipped` counter) is threaded explicitly through
every function as an `MNState`; a `BodyResult.keypoints` field is a `KRef`,
which is either a reference to the shared scratch array (`KRef.shared`, what
`parseSinglePose` stores) or an owned copy (`KRef.own`, what `parseMultiPose`
stores via `[...keypoints]`), and is read back through `derefK` against the
current buffer, mirroring JavaScript reference semantics.
-/

/-- JavaScript number used in box computations: a rational, an infinity, or NaN.
`Math.min()`/`Math.max()` of an empty spread yield `Infinity`/`-Infinity`. -/
inductive JNum where
  | nan
  | negInf
  | fin (q : ℚ)
  | posInf
deriving DecidableEq, Repr

/-- `Math.min` on two JavaScript numbers. -/
def jsMin : JNum → JNum → JNum
  | JNum.nan, _ => JNum.nan
  | _, JNum.nan => JNum.nan
  | JNum.negInf, _ => JNum.negInf
  | _, JNum.negInf => JNum.negInf
  | JNum.posInf, b => b
  | a, JNum.posInf => a
  | JNum.fin a, JNum.fin b => JNum.fin (min a b)

/-- `Math.max` on two JavaScript numbers. -/
def jsMax : JNum → JNum → JNum
  | JNum.nan, _ => JNum.nan
  | _, JNum.nan => JNum.nan
  | JNum.posInf, _ => JNum.posInf
  | _, JNum.posInf => JNum.posInf
  | JNum.negInf, b => b
  | a, JNum.negInf => a
  | JNum.fin a, JNum.fin b => JNum.fin (max a b)

/-- `Math.min(...l)`: the empty spread gives `Infinity`. -/
def jsMinList (l : List JNum) : JNum := l.foldl jsMin JNum.posInf

/-- `Math.max(...l)`: the empty spread gives `-Infinity`. -/
def jsMaxList (l : List JNum) : JNum := l.foldl jsMax JNum.negInf

/-- Subtraction on JavaScript numbers (`Infinity - Infinity` is `NaN`). -/
def jsSub : JNum → JNum → JNum
  | JNum.nan, _ => JNum.nan
  | _, JNum.nan => JNum.nan
  | JNum.posInf, JNum.posInf => JNum.nan
  | JNum.negInf, JNum.negInf => JNum.nan
  | JNum.posInf, _ => JNum.posInf
  | JNum.negInf, _ => JNum.negInf
  | JNum.fin _, JNum.posInf => JNum.negInf
  | JNum.fin _, JNum.negInf => JNum.posInf
  | JNum.fin a, JNum.fin b => JNum.fin (a - b)

/-- `Math.round`: round half toward positive infinity. -/
def jsRound (q : ℚ) : ℤ := ⌊q + 1 / 2⌋

/-- `Math.round(100 * q) / 100`: rounding a score to two decimals. -/
def round2 (q : ℚ) : ℚ := ((jsRound (100 * q) : ℚ)) / 100

/-- The per-frame configuration consumed by the pipeline (`config.body` plus the
frame-cache flag `config.skipFrame`). -/
structure Config where
  minConfidence : ℚ
  maxDetected : Nat
  skipFrame : Bool
  skipFrames : Nat
deriving DecidableEq, Repr

/-- The input tensor's pixel dimensions: `image.shape[2]` is the width and
`image.shape[1]` the height. -/
structure Image where
  width : ℚ
  height : ℚ
deriving DecidableEq, Repr

/-- A normalized region in `(y0, x0, y1, x1)` order, as stored in `cachedBoxes`
and passed to the decoders as `inputBox`. -/
structure YXBox where
  y0 : ℚ
  x0 : ℚ
  y1 : ℚ
  x1 : ℚ
deriving DecidableEq, Repr

/-- The full-frame reference box `[0, 0, 1, 1]`. -/
def unitBox : YXBox := { y0 := 0, x0 := 0, y1 := 1, x1 := 1 }

/-- One decoded keypoint (`BodyKeypoint`). -/
structure Keypoint where
  score : ℚ
  part : String
  positionRaw : ℚ × ℚ
  position : ℤ × ℤ
deriving DecidableEq, Repr

/-- A pose box `(x, y, width, height)` whose entries are JavaScript numbers. -/
abbrev JBox := JNum × JNum × JNum × JNum

/-- The degenerate box produced from an empty keypoint list:
`[Infinity, Infinity, -Infinity, -Infinity]`. -/
def infJBox : JBox := (JNum.posInf, JNum.posInf, JNum.negInf, JNum.negInf)

/-- A result's keypoint field: `parseSinglePose` pushes the shared scratch array
itself, `parseMultiPose` pushes a copy (`[...keypoints]`). -/
inductive KRef where
  | shared
  | own (l : List Keypoint)
deriving DecidableEq, Repr

/-- Reading a keypoint reference against the current shared buffer content. -/
def derefK (kbuf : List Keypoint) : KRef → List Keypoint
  | KRef.shared => kbuf
  | KRef.own l => l

/-- The module-level mutable state: the shared `keypoints` scratch array, the
`cachedBoxes` array and the `skipped` staleness counter. -/
structure MNState where
  kbuf : List Keypoint
  cachedBoxes : List YXBox
  skipped : Nat
deriving DecidableEq, Repr

/-- `Number.MAX_SAFE_INTEGER`, the initial value of `skipped`. -/
def maxSafeInteger : Nat := 2 ^ 53 - 1

/-- The module state at load time: empty scratch buffer, empty cache,
`skipped = Number.MAX_SAFE_INTEGER`. -/
def initState : MNState := { kbuf := [], cachedBoxes := [], skipped := maxSafeInteger }

/-- One decoded pose (`BodyResult`). -/
structure Body where
  id : Nat
  score : ℚ
  box : JBox
  boxRaw : JBox
  keypoints : KRef
  annotations : List (String × List ((ℤ × ℤ) × (ℤ × ℤ)))
deriving DecidableEq, Repr

/-- Modelled from the spec: the 17 MoveNet keypoint part names.  The source
imports them from `./movenetcoords`, which is not under `src/`; the spec's data
model and glossary name parts such as "leftShoulder". -/
def kptNames : List String :=
  ["nose", "leftEye", "rightEye", "leftEar", "rightEar", "leftShoulder", "rightShoulder",
   "leftElbow", "rightElbow", "leftWrist", "rightWrist", "leftHip", "rightHip",
   "leftKnee", "rightKnee", "leftAnkle", "rightAnkle"]

/-- `coords.kpt[id]` (out-of-range reads give `undefined` in JavaScript). -/
def kptName (i : Nat) : String := kptNames.getD i "undefined"

/-- Modelled from the spec: the fixed named-connectivity table
`coords.connected` (from `./movenetcoords`, not under `src/`); the spec names
chains such as "leftArm" mapping to ordered part-name lists. -/
def connected : List (String × List String) :=
  [("leftLeg", ["leftHip", "leftKnee", "leftAnkle"]),
   ("rightLeg", ["rightHip", "rightKnee", "rightAnkle"]),
   ("torso", ["leftShoulder", "rightShoulder", "rightHip", "leftHip", "leftShoulder"]),
   ("leftArm", ["leftShoulder", "leftElbow", "leftWrist"]),
   ("rightArm", ["rightShoulder", "rightElbow", "rightWrist"]),
   ("head", [])]

/-- The coordinate transform shared by both decoders: a crop-relative keypoint
`(ky, kx)` and the crop's reference box give `positionRaw` (full-image
normalized, `(x, y)`) and `position` (pixel, rounded). -/
def mapCoord (inputBox : YXBox) (ky kx : ℚ) (image : Image) : (ℚ × ℚ) × (ℤ × ℤ) :=
  let positionRaw : ℚ × ℚ :=
    ((inputBox.x1 - inputBox.x0) * kx + inputBox.x0,
     (inputBox.y1 - inputBox.y0) * ky + inputBox.y0)
  (positionRaw,
   (jsRound (image.width * positionRaw.1), jsRound (image.height * positionRaw.2)))

/-- The keypoint list built by `parseSinglePose`'s loop over `res[0][0]`:
each slot is a `(y, x, score)` triple, kept only when its raw score exceeds
`config.body.minConfidence`. -/
def singleKpts (res : List (ℚ × ℚ × ℚ)) (cfg : Config) (image : Image) (inputBox : YXBox) :
    List Keypoint :=
  res.enum.filterMap (fun ik =>
    if ik.2.2.2 > cfg.minConfidence then
      some { score := round2 ik.2.2.2
             part := kptName ik.1
             positionRaw := (mapCoord inputBox ik.2.1 ik.2.2.1 image).1
             position := (mapCoord inputBox ik.2.1 ik.2.2.1 image).2 }
    else none)

/-- `createBox`: the axis-aligned enclosure of the keypoints' pixel positions
and normalized positions, as `(x, y, width, height)` pairs. -/
def createBox (points : List Keypoint) : JBox × JBox :=
  let x := points.map (fun a => JNum.fin ((a.position.1 : ℚ)))
  let y := points.map (fun a => JNum.fin ((a.position.2 : ℚ)))
  let box : JBox :=
    (jsMinList x, jsMinList y, jsSub (jsMaxList x) (jsMinList x), jsSub (jsMaxList y) (jsMinList y))
  let xRaw := points.map (fun a => JNum.fin a.positionRaw.1)
  let yRaw := points.map (fun a => JNum.fin a.positionRaw.2)
  let boxRaw : JBox :=
    (jsMinList xRaw, jsMinList yRaw, jsSub (jsMaxList xRaw) (jsMinList xRaw),
     jsSub (jsMaxList yRaw) (jsMinList yRaw))
  (box, boxRaw)

/-- `keypoints.reduce((prev, curr) => (curr.score > prev ? curr.score : prev), 0)`. -/
def maxKptScore (l : List Keypoint) : ℚ :=
  l.foldl (fun prev curr => if curr.score > prev then curr.score else prev) 0

/-- The skeleton-annotation loop shared by both decoders: for each named chain,
the consecutive-pair segments whose two endpoint parts are present and pass the
confidence threshold. -/
def buildAnnotations (cfg : Config) (kpts : List Keypoint) :
    List (String × List ((ℤ × ℤ) × (ℤ × ℤ))) :=
  connected.map (fun nc =>
    (nc.1, (List.range (nc.2.length - 1)).filterMap (fun i =>
      match kpts.find? (fun kp => kp.part == nc.2.getD i ""),
            kpts.find? (fun kp => kp.part == nc.2.getD (i + 1) "") with
      | some pt0, some pt1 =>
        if pt0.score > cfg.minConfidence ∧ pt1.score > cfg.minConfidence then
          some (pt0.position, pt1.position)
        else none
      | _, _ => none)))

/-- The single `BodyResult` pushed by `parseSinglePose`: note that its
`keypoints` field is the shared scratch array itself, not a copy. -/
def singleBody (res : List (ℚ × ℚ × ℚ)) (cfg : Config) (image : Image) (inputBox : YXBox) :
    Body :=
  let kpts := singleKpts res cfg image inputBox
  { id := 0
    score := maxKptScore kpts
    box := (createBox kpts).1
    boxRaw := (createBox kpts).2
    keypoints := KRef.shared
    annotations := buildAnnotations cfg kpts }

/-- `parseSinglePose`: clears and refills the shared scratch array, and returns
exactly one body whose `keypoints` field aliases that array. -/
def parseSinglePose (res : List (ℚ × ℚ × ℚ)) (cfg : Config) (image : Image)
    (inputBox : YXBox) (st : MNState) : List Body × MNState :=
  ([singleBody res cfg image inputBox],
   { st with kbuf := singleKpts res cfg image inputBox })

/-- The keypoint list one multi-pose slot contributes: slot entry `3*i + 0` is
`y`, `3*i + 1` is `x`, `3*i + 2` is the keypoint score, for the 17 fixed parts.
Out-of-range reads of a slot are modelled as `0`. -/
def decodeSlot (kpt : List ℚ) (cfg : Config) (image : Image) (inputBox : YXBox) :
    List Keypoint :=
  (List.range 17).filterMap (fun i =>
    if kpt.getD (3 * i + 2) 0 > cfg.minConfidence then
      some { score := round2 (kpt.getD (3 * i + 2) 0)
             part := kptName i
             positionRaw := (mapCoord inputBox (kpt.getD (3 * i) 0) (kpt.getD (3 * i + 1) 0) image).1
             position := (mapCoord inputBox (kpt.getD (3 * i) 0) (kpt.getD (3 * i + 1) 0) image).2 }
    else none)

/-- The `BodyResult` pushed for a passing multi-pose slot: `id` is the slot
index, `score` is the slot's rounded aggregate score (`kpt[51 + 4]`), and the
`keypoints` field is a copy of the scratch array (`[...keypoints]`). -/
def multiBody (cfg : Config) (image : Image) (inputBox : YXBox) (id : Nat) (kpt : List ℚ) :
    Body :=
  let kpts := decodeSlot kpt cfg image inputBox
  { id := id
    score := round2 (kpt.getD 55 0)
    box := (createBox kpts).1
    boxRaw := (createBox kpts).2
    keypoints := KRef.own kpts
    annotations := buildAnnotations cfg kpts }

/-- `parseMultiPose`'s slot loop: a slot whose rounded aggregate score passes
the filter refills the shared scratch array and appends one body; a failing
slot leaves both untouched. -/
def multiLoop (cfg : Config) (image : Image) (inputBox : YXBox) :
    Nat → List (List ℚ) → List Body → List Keypoint → List Body × List Keypoint
  | _, [], bodies, kbuf => (bodies, kbuf)
  | id, kpt :: rest, bodies, kbuf =>
    if round2 (kpt.getD 55 0) > cfg.minConfidence then
      multiLoop cfg image inputBox (id + 1) rest
        (bodies ++ [multiBody cfg image inputBox id kpt]) (decodeSlot kpt cfg image inputBox)
    else
      multiLoop cfg image inputBox (id + 1) rest bodies kbuf

/-- The bodies emitted by `parseMultiPose`'s loop, before sorting and capping
(slot indices counted from `id`). -/
def multiEmitted (cfg : Config) (image : Image) (inputBox : YXBox) :
    Nat → List (List ℚ) → List Body
  | _, [] => []
  | id, kpt :: rest =>
    if round2 (kpt.getD 55 0) > cfg.minConfidence then
      multiBody cfg image inputBox id kpt :: multiEmitted cfg image inputBox (id + 1) rest
    else
      multiEmitted cfg image inputBox (id + 1) rest

/-- The descending-score ordering used by `bodies.sort((a, b) => b.score - a.score)`. -/
def scoreGe (a b : Body) : Prop := b.score ≤ a.score

instance : DecidableRel scoreGe := fun a b => inferInstanceAs (Decidable (b.score ≤ a.score))

instance : IsTotal Body scoreGe := ⟨fun a b => le_total b.score a.score⟩

instance : IsTrans Body scoreGe := ⟨fun _ _ _ h1 h2 => le_trans h2 h1⟩

/-- `bodies.sort((a, b) => b.score - a.score)`: a stable sort by descending
score, modelled by stable insertion sort. -/
def sortBodies (l : List Body) : List Body := List.insertionSort scoreGe l

/-- `parseMultiPose`: decode every slot, sort by descending score, truncate to
`config.body.maxDetected`. -/
def parseMultiPose (res : List (List ℚ)) (cfg : Config) (image : Image)
    (inputBox : YXBox) (st : MNState) : List Body × MNState :=
  let p := multiLoop cfg image inputBox 0 res [] st.kbuf
  ((sortBodies p.1).take cfg.maxDetected, { st with kbuf := p.2 })

/-- A raw inference output: the source dispatches on `t.res.shape[2] === 17`,
which distinguishes the single-pose layout `[1][1][17][3]` (carried here as the
17 `(y, x, score)` triples `res[0][0]`) from the multi-pose layout `[1][N][56]`
(carried as the list of slots `res[0]`). -/
inductive RawRes where
  | single (kpts : List (ℚ × ℚ × ℚ))
  | multi (slots : List (List ℚ))
deriving DecidableEq, Repr

/-- Whether a raw output uses the single-pose layout. -/
def RawRes.isSingle : RawRes → Bool
  | RawRes.single _ => true
  | RawRes.multi _ => false

/-- The external inference collaborator: the model's raw output for a crop of
the current frame at a cached box, and for the resized full frame. -/
structure Oracle where
  cropRes : YXBox → RawRes
  fullRes : RawRes

/-- Layout dispatch shared by the cached-region and full-frame paths. -/
def decodeRes (r : RawRes) (cfg : Config) (image : Image) (inputBox : YXBox)
    (st : MNState) : List Body × MNState :=
  match r with
  | RawRes.single k => parseSinglePose k cfg image inputBox st
  | RawRes.multi s => parseMultiPose s cfg image inputBox st

/-- Modelled from the spec: the box-scaling collaborator (`scale` from
`src/util/box`, not under `src/`).  Spec section 6: `enclose(points,
paddingFactor, imageDims) -> normalizedBox`; section 4.4 step 5: enclose the
pose's pixel keypoints in an axis-aligned box, pad it by the factor relative to
the image's pixel dimensions, and express it in normalized `(y0, x0, y1, x1)`
form (the `yxBox` the source copies into `cachedBoxes`). -/
def scaleBox (points : List (ℤ × ℤ)) (factor : ℚ) (dims : ℚ × ℚ) : YXBox :=
  match points with
  | [] => { y0 := 0, x0 := 0, y1 := 0, x1 := 0 }
  | p :: ps =>
    let xs := (p :: ps).map (fun q => (q.1 : ℚ))
    let ys := (p :: ps).map (fun q => (q.2 : ℚ))
    let minX := xs.foldl min ((p.1 : ℚ))
    let maxX := xs.foldl max ((p.1 : ℚ))
    let minY := ys.foldl min ((p.2 : ℚ))
    let maxY := ys.foldl max ((p.2 : ℚ))
    let cx := (minX + maxX) / 2
    let cy := (minY + maxY) / 2
    let hw := factor * (maxX - minX) / 2
    let hh := factor * (maxY - minY) / 2
    { y0 := (cy - hh) / dims.2, x0 := (cx - hw) / dims.1,
      y1 := (cy + hh) / dims.2, x1 := (cx + hw) / dims.1 }

/-- Steps 1 and 2 of a frame: clear the cache when frame-caching is disabled,
then increment the staleness counter (`skipped++`). -/
def stepSt2 (cfg : Config) (st : MNState) : MNState :=
  { (if cfg.skipFrame = false then { st with cachedBoxes := [] } else st) with
    skipped := st.skipped + 1 }

/-- The loop over `cachedBoxes`: decode each cached region against the current
frame and concatenate the results. -/
def runCachedList (cfg : Config) (image : Image) (or : Oracle) :
    List YXBox → List Body × MNState → List Body × MNState
  | [], acc => acc
  | b :: rest, acc =>
    let r := decodeRes (or.cropRes b) cfg image b acc.2
    runCachedList cfg image or rest (acc.1 ++ r.1, r.2)

/-- Step 3 of a frame: run cached-region inference over every cached box. -/
def runCached (cfg : Config) (image : Image) (or : Oracle) (st : MNState) :
    List Body × MNState :=
  runCachedList cfg image or st.cachedBoxes ([], st)

/-- The full-frame guard:
`(bodies.length !== config.body.maxDetected) && (skipped > (config.body.skipFrames || 0))`. -/
abbrev fullCond (cfg : Config) (count skipped : Nat) : Prop :=
  count ≠ cfg.maxDetected ∧ cfg.skipFrames < skipped

/-- Step 4 of a frame when the guard fires: full-frame inference replaces the
accumulated bodies, the cache is cleared and the staleness counter reset. -/
def runFull (cfg : Config) (image : Image) (or : Oracle) (st : MNState) :
    List Body × MNState :=
  let r := decodeRes or.fullRes cfg image unitBox st
  (r.1, { r.2 with cachedBoxes := [], skipped := 0 })

/-- Step 5 of a frame: when frame-caching is enabled, rebuild `cachedBoxes`
from the bodies that kept more than 10 keypoints, scaling each pose's pixel
keypoints by 1.5 against the image dimensions. -/
def updateCache (cfg : Config) (image : Image) (bodies : List Body) (st : MNState) :
    MNState :=
  if cfg.skipFrame then
    let newBoxes := (bodies.filter (fun b => 10 < (derefK st.kbuf b.keypoints).length)).map
      (fun b => scaleBox ((derefK st.kbuf b.keypoints).map (fun kp => kp.position))
        (3 / 2) (image.width, image.height))
    { st with cachedBoxes := newBoxes }
  else st

/-- One `predict` call: the whole per-frame pipeline.  `loaded = false` models
the missing-model early return. -/
def predictStep (loaded : Bool) (cfg : Config) (image : Image) (or : Oracle)
    (st : MNState) : List Body × MNState :=
  if loaded = false then ([], st) else
  let p3 := runCached cfg image or (stepSt2 cfg st)
  let p4 := if fullCond cfg p3.1.length p3.2.skipped then runFull cfg image or p3.2 else p3
  (p4.1, updateCache cfg image p4.1 p4.2)

/-- A sequence of frames: fold `predict` over per-frame oracles. -/
def iterFrames (cfg : Config) (image : Image) (ors : List Oracle) (st : MNState) :
    MNState :=
  ors.foldl (fun s o => (predictStep true cfg image o s).2) st

/-- Every body in the accumulator has, read against the current shared buffer,
only keypoints within `1/200` of exceeding the configured threshold. -/
def GoodAcc (cfg : Config) (p : List Body × MNState) : Prop :=
  ∀ b ∈ p.1, ∀ kp ∈ derefK p.2.kbuf b.keypoints, cfg.minConfidence - 1 / 200 < kp.score

/-! ### Concrete inputs used to instantiate and to refute claims -/

/-- A 100 by 100 input frame. -/
def img100 : Image := { width := 100, height := 100 }

/-- A multi-pose slot whose 17 keypoints are all at `(1/2, 1/2)` with score
`9/10`, with aggregate slot score `agg` at offset 55. -/
def fullSlot (agg : ℚ) : List ℚ := (List.replicate 17 [(1 : ℚ)/2, 1/2, 9/10]).flatten ++ [0, 0, 0, 0, agg]

/-- A multi-pose slot with no passing keypoints and aggregate score `agg`. -/
def emptySlot (agg : ℚ) : List ℚ := List.replicate 55 (0 : ℚ) ++ [agg]

/-- A multi-pose slot with exactly 10 passing keypoints and aggregate `9/10`. -/
def tenSlot : List ℚ :=
  (List.replicate 10 [(1 : ℚ)/2, 1/2, 9/10] ++ List.replicate 7 [(1 : ℚ)/2, 1/2, 0]).flatten
    ++ [0, 0, 0, 0, 9/10]

/-- Tracking enabled, threshold `1/5`, cap 2, refresh interval 5. -/
def cfgC1 : Config := { minConfidence := 1/5, maxDetected := 2, skipFrame := true, skipFrames := 5 }

/-- Frame oracle for the cap counterexample: the full frame holds two poses
with 17 keypoints each, every cached-region crop holds two further poses. -/
def orC1 : Oracle :=
  { cropRes := fun _ => RawRes.multi [emptySlot (9/10), emptySlot (3/10)],
    fullRes := RawRes.multi [fullSlot (9/10), fullSlot (4/5)] }

/-- Threshold `361/1000`, tracking disabled. -/
def cfgC3 : Config := { minConfidence := 361/1000, maxDetected := 1, skipFrame := false, skipFrames := 0 }

/-- A single-pose output with one keypoint of raw score `3612/10000`: it passes
the raw filter but its stored rounded score `9/25` falls below the threshold. -/
def orC3 : Oracle :=
  { cropRes := fun _ => RawRes.single [(1/2, 1/2, 3612/10000)],
    fullRes := RawRes.single [(1/2, 1/2, 3612/10000)] }

/-- Threshold `1/5`, used by several concrete decodes. -/
def cfgC2 : Config := { minConfidence := 1/5, maxDetected := 2, skipFrame := false, skipFrames := 0 }

/-- A single-pose output whose only keypoint fails the filter. -/
def resC2 : List (ℚ × ℚ × ℚ) := [(1/2, 1/2, 0)]

/-- A single-pose output with one passing keypoint. -/
def resC4a : List (ℚ × ℚ × ℚ) := [(1/2, 1/2, 9/10)]

/-- A single-pose output with no keypoints at all. -/
def resC4b : List (ℚ × ℚ × ℚ) := []

/-- Threshold `2995/10000`: the slot aggregate `149/500 = 0.298` fails this raw
filter, but its rounded value `3/10` passes it. -/
def cfgC5 : Config := { minConfidence := 2995/10000, maxDetected := 2, skipFrame := false, skipFrames := 0 }

/-- One multi-pose slot with raw aggregate score `149/500`. -/
def resC5 : List (List ℚ) := [emptySlot (149/500)]

/-- A single-pose oracle with one high-scoring keypoint, used for witnesses. -/
def orW : Oracle :=
  { cropRes := fun _ => RawRes.single [(1/2, 1/2, 9/10)],
    fullRes := RawRes.single [(1/2, 1/2, 9/10)] }

/-- Threshold `1/5`, cap 1, tracking enabled, refresh interval 3. -/
def cfgW : Config := { minConfidence := 1/5, maxDetected := 1, skipFrame := true, skipFrames := 3 }

/-- Tracking enabled, cap 1: a frame whose only pose keeps exactly 10
keypoints, which the source does not cache. -/
def cfgC8 : Config := { minConfidence := 1/5, maxDetected := 1, skipFrame := true, skipFrames := 0 }

/-- Full-frame output holding the 10-keypoint pose. -/
def orC8 : Oracle :=
  { cropRes := fun _ => RawRes.multi [tenSlot], fullRes := RawRes.multi [tenSlot] }

/-- The keypoint decoded from `orW`'s raw output on a 100 by 100 frame. -/
def kpW : Keypoint :=
  { score := 9/10, part := "nose", positionRaw := (1/2, 1/2), position := (50, 50) }

/-- The body decoded from `orW`'s raw output on a 100 by 100 frame. -/
def bW : Body := singleBody [(1/2, 1/2, 9/10)] cfgW img100 unitBox

/-- The body decoded from the first slot of a one-slot multi-pose output. -/
def bW4 : Body := multiBody cfgC1 img100 unitBox 0 (fullSlot (9/10))

attribute [local semireducible] Rat.add Rat.mul Rat.inv Rat.sub

set_option maxRecDepth 8000

/-! ### Arithmetic facts about score rounding -/

/-- Two-decimal rounding lowers a value by strictly less than `1/200`. -/
theorem round2_gt (q : ℚ) : q - 1 / 200 < round2 q := by
  have h := Int.sub_one_lt_floor (100 * q + 1 / 2)
  unfold round2 jsRound
  rw [lt_div_iff₀ (by norm_num : (0 : ℚ) < 100)]
  linarith

/-- Two-decimal rounding of a positive value is nonnegative. -/
theorem round2_nonneg {q : ℚ} (h : 0 < q) : 0 ≤ round2 q := by
  unfold round2 jsRound
  have h2 : (0 : ℤ) ≤ ⌊100 * q + 1 / 2⌋ := Int.floor_nonneg.mpr (by linarith)
  positivity

/-! ### The score fold of `parseSinglePose` -/

/-- The reduce in `parseSinglePose` never goes below its accumulator. -/
theorem foldlMax_init_le (l : List Keypoint) :
    ∀ init : ℚ, init ≤ l.foldl (fun prev curr => if curr.score > prev then curr.score else prev) init := by
  induction l with
  | nil => intro init; exact le_refl init
  | cons x xs ih =>
    intro init
    refine le_trans ?_ (ih (if x.score > init then x.score else init))
    split
    · exact le_of_lt (by assumption)
    · exact le_refl init

/-- The reduce in `parseSinglePose` dominates every element's score. -/
theorem mem_le_foldlMax {kp : Keypoint} {l : List Keypoint} (h : kp ∈ l) :
    ∀ init : ℚ, kp.score ≤ l.foldl (fun prev curr => if curr.score > prev then curr.score else prev) init := by
  induction l with
  | nil => cases h
  | cons x xs ih =>
    intro init
    rcases List.mem_cons.mp h with rfl | hxs
    · refine le_trans ?_ (foldlMax_init_le xs _)
      show kp.score ≤ if kp.score > init then kp.score else init
      split
      · exact le_refl _
      · exact le_of_not_lt (by assumption)
    · exact ih hxs _

/-- The reduce in `parseSinglePose` returns its accumulator or some element's score. -/
theorem foldlMax_eq_init_or_mem (l : List Keypoint) :
    ∀ init : ℚ, l.foldl (fun prev curr => if curr.score > prev then curr.score else prev) init = init
      ∨ ∃ kp ∈ l, l.foldl (fun prev curr => if curr.score > prev then curr.score else prev) init = kp.score := by
  induction l with
  | nil => intro init; exact Or.inl rfl
  | cons x xs ih =>
    intro init
    rcases ih (if x.score > init then x.score else init) with h | ⟨kp, hkp, h⟩
    · by_cases hx : x.score > init
      · right
        exact ⟨x, List.mem_cons_self x xs, by simpa [List.foldl_cons, if_pos hx] using h⟩
      · left
        simpa [List.foldl_cons, if_neg hx] using h
    · right
      exact ⟨kp, List.mem_cons_of_mem _ hkp, by simpa [List.foldl_cons] using h⟩

/-- `maxKptScore` dominates every keypoint in the list. -/
theorem maxKptScore_ge {kp : Keypoint} {l : List Keypoint} (h : kp ∈ l) :
    kp.score ≤ maxKptScore l :=
  mem_le_foldlMax h 0

/-- `maxKptScore` of the empty list is `0`. -/
theorem maxKptScore_nil : maxKptScore [] = 0 := rfl

/-- On a nonempty list of nonnegative scores, `maxKptScore` is attained. -/
theorem maxKptScore_attained {l : List Keypoint} (hne : l ≠ [])
    (hpos : ∀ kp ∈ l, 0 ≤ kp.score) : ∃ kp ∈ l, maxKptScore l = kp.score := by
  rcases foldlMax_eq_init_or_mem l 0 with h | h
  · cases l with
    | nil => exact absurd rfl hne
    | cons x xs =>
      refine ⟨x, List.mem_cons_self x xs, ?_⟩
      have hx : x.score ≤ maxKptScore (x :: xs) := maxKptScore_ge (List.mem_cons_self x xs)
      have h0 : maxKptScore (x :: xs) = 0 := h
      have := hpos x (List.mem_cons_self x xs)
      rw [maxKptScore] at *
      linarith
  · exact h

/-! ### Keypoint filtering at decode time -/

/-- Every keypoint kept by `parseSinglePose`'s filter was pushed with a raw
score strictly above the threshold, so its stored rounded score is within
`1/200` of exceeding it, and is nonnegative for a nonnegative threshold. -/
theorem mem_singleKpts_score {kp : Keypoint} {res : List (ℚ × ℚ × ℚ)} {cfg : Config}
    {image : Image} {inputBox : YXBox} (h : kp ∈ singleKpts res cfg image inputBox) :
    cfg.minConfidence - 1 / 200 < kp.score ∧ (0 ≤ cfg.minConfidence → 0 ≤ kp.score) := by
  rcases List.mem_filterMap.mp h with ⟨a, _, hfa⟩
  by_cases hc : a.2.2.2 > cfg.minConfidence
  · rw [if_pos hc] at hfa
    cases hfa
    constructor
    · have := round2_gt a.2.2.2
      simp only
      linarith
    · intro h0
      exact round2_nonneg (lt_of_le_of_lt h0 hc)
  · rw [if_neg hc] at hfa
    cases hfa

/-- Same filtering fact for the keypoints of one multi-pose slot. -/
theorem mem_decodeSlot_score {kp : Keypoint} {kpt : List ℚ} {cfg : Config}
    {image : Image} {inputBox : YXBox} (h : kp ∈ decodeSlot kpt cfg image inputBox) :
    cfg.minConfidence - 1 / 200 < kp.score ∧ (0 ≤ cfg.minConfidence → 0 ≤ kp.score) := by
  rcases List.mem_filterMap.mp h with ⟨i, _, hfa⟩
  by_cases hc : kpt.getD (3 * i + 2) 0 > cfg.minConfidence
  · rw [if_pos hc] at hfa
    cases hfa
    constructor
    · have := round2_gt (kpt.getD (3 * i + 2) 0)
      simp only
      linarith
    · intro h0
      exact round2_nonneg (lt_of_le_of_lt h0 hc)
  · rw [if_neg hc] at hfa
    cases hfa

/-! ### The multi-pose slot loop -/

/-- The bodies accumulated by `multiLoop` are the incoming accumulator followed
by the emitted bodies. -/
theorem multiLoop_fst (cfg : Config) (image : Image) (inputBox : YXBox) :
    ∀ (res : List (List ℚ)) (id : Nat) (bodies : List Body) (kbuf : List Keypoint),
      (multiLoop cfg image inputBox id res bodies kbuf).1
        = bodies ++ multiEmitted cfg image inputBox id res := by
  intro res
  induction res with
  | nil => intro id bodies kbuf; simp [multiLoop, multiEmitted]
  | cons kpt rest ih =>
    intro id bodies kbuf
    by_cases hc : round2 (kpt.getD 55 0) > cfg.minConfidence
    · simp only [multiLoop, multiEmitted, if_pos hc, ih, List.append_assoc, List.cons_append,
        List.nil_append]
    · simp only [multiLoop, multiEmitted, if_neg hc, ih]

/-- The scratch buffer left by `multiLoop` is either the incoming buffer (no
slot passed) or the keypoints of some slot. -/
theorem multiLoop_snd (cfg : Config) (image : Image) (inputBox : YXBox) :
    ∀ (res : List (List ℚ)) (id : Nat) (bodies : List Body) (kbuf : List Keypoint),
      (multiLoop cfg image inputBox id res bodies kbuf).2 = kbuf
        ∨ ∃ kpt, (multiLoop cfg image inputBox id res bodies kbuf).2
            = decodeSlot kpt cfg image inputBox := by
  intro res
  induction res with
  | nil => intro id bodies kbuf; exact Or.inl rfl
  | cons kpt rest ih =>
    intro id bodies kbuf
    by_cases hc : round2 (kpt.getD 55 0) > cfg.minConfidence
    · rw [multiLoop, if_pos hc]
      rcases ih (id + 1) (bodies ++ [multiBody cfg image inputBox id kpt])
          (decodeSlot kpt cfg image inputBox) with h | ⟨k, h⟩
      · exact Or.inr ⟨kpt, h⟩
      · exact Or.inr ⟨k, h⟩
    · rw [multiLoop, if_neg hc]
      exact ih (id + 1) bodies kbuf

/-- Membership in the emitted list: exactly the passing slots, with the slot
index offset by the loop's starting index. -/
theorem mem_multiEmitted (cfg : Config) (image : Image) (inputBox : YXBox) :
    ∀ (res : List (List ℚ)) (id : Nat) (b : Body),
      b ∈ multiEmitted cfg image inputBox id res ↔
        ∃ i, i < res.length ∧ cfg.minConfidence < round2 ((res.getD i []).getD 55 0)
          ∧ b = multiBody cfg image inputBox (id + i) (res.getD i []) := by
  intro res
  induction res with
  | nil =>
    intro id b
    simp [multiEmitted]
  | cons kpt rest ih =>
    intro id b
    constructor
    · intro hb
      by_cases hc : round2 (kpt.getD 55 0) > cfg.minConfidence
      · rw [multiEmitted, if_pos hc] at hb
        rcases List.mem_cons.mp hb with rfl | hb'
        · exact ⟨0, by simp, by simpa using hc, by simp⟩
        · rcases (ih (id + 1) b).mp hb' with ⟨i, hi, hcond, hbeq⟩
          refine ⟨i + 1, by simpa using hi, by simpa using hcond, ?_⟩
          simpa [Nat.add_assoc, Nat.add_comm 1 i] using hbeq
      · rw [multiEmitted, if_neg hc] at hb
        rcases (ih (id + 1) b).mp hb with ⟨i, hi, hcond, hbeq⟩
        refine ⟨i + 1, by simpa using hi, by simpa using hcond, ?_⟩
        simpa [Nat.add_assoc, Nat.add_comm 1 i] using hbeq
    · rintro ⟨i, hi, hcond, rfl⟩
      cases i with
      | zero =>
        have hc : round2 (kpt.getD 55 0) > cfg.minConfidence := by simpa using hcond
        rw [multiEmitted, if_pos hc]
        exact List.mem_cons_self _ _
      | succ j =>
        have hmem : multiBody cfg image inputBox ((id + 1) + j) (rest.getD j [])
            ∈ multiEmitted cfg image inputBox (id + 1) rest :=
          (ih (id + 1) _).mpr ⟨j, by simpa using hi, by simpa using hcond, rfl⟩
        have harith : id + (j + 1) = (id + 1) + j := by omega
        by_cases hc : round2 (kpt.getD 55 0) > cfg.minConfidence
        · rw [multiEmitted, if_pos hc]
          refine List.mem_cons_of_mem _ ?_
          simpa [harith] using hmem
        · rw [multiEmitted, if_neg hc]
          simpa [harith] using hmem

/-! ### The stable descending sort and the cap -/

/-- The sort is a permutation of its input. -/
theorem sortBodies_perm (l : List Body) : List.Perm (sortBodies l) l :=
  List.perm_insertionSort scoreGe l

/-- The sort's output is pairwise in non-increasing score order. -/
theorem sortBodies_sorted (l : List Body) : (sortBodies l).Pairwise scoreGe :=
  List.sorted_insertionSort scoreGe l

/-- A truncated sorted list is still sorted. -/
theorem take_sorted (l : List Body) (n : Nat) (h : l.Pairwise scoreGe) :
    (l.take n).Pairwise scoreGe :=
  h.sublist (List.take_sublist n l)

/-! ### State preservation through the decoders -/

/-- Both decoders only touch the shared scratch buffer: `cachedBoxes` and
`skipped` pass through unchanged. -/
theorem decodeRes_state (r : RawRes) (cfg : Config) (image : Image) (inputBox : YXBox)
    (st : MNState) :
    (decodeRes r cfg image inputBox st).2.cachedBoxes = st.cachedBoxes
      ∧ (decodeRes r cfg image inputBox st).2.skipped = st.skipped := by
  cases r with
  | single k => exact ⟨rfl, rfl⟩
  | multi s => exact ⟨rfl, rfl⟩

/-- The cached-region loop also leaves `cachedBoxes` and `skipped` unchanged. -/
theorem runCachedList_state (cfg : Config) (image : Image) (or : Oracle) :
    ∀ (boxes : List YXBox) (acc : List Body × MNState),
      (runCachedList cfg image or boxes acc).2.cachedBoxes = acc.2.cachedBoxes
        ∧ (runCachedList cfg image or boxes acc).2.skipped = acc.2.skipped := by
  intro boxes
  induction boxes with
  | nil => intro acc; exact ⟨rfl, rfl⟩
  | cons b rest ih =>
    intro acc
    rw [runCachedList]
    refine ⟨?_, ?_⟩
    · rw [(ih _).1]
      exact (decodeRes_state _ cfg image b acc.2).1
    · rw [(ih _).2]
      exact (decodeRes_state _ cfg image b acc.2).2

/-- Steps 1 and 2 only clear the cache (when disabled) and bump the counter. -/
theorem stepSt2_fields (cfg : Config) (st : MNState) :
    (stepSt2 cfg st).skipped = st.skipped + 1 ∧ (stepSt2 cfg st).kbuf = st.kbuf
      ∧ (stepSt2 cfg st).cachedBoxes = (if cfg.skipFrame then st.cachedBoxes else []) := by
  cases h : cfg.skipFrame <;> simp [stepSt2, h]

/-- Step 5 only rewrites `cachedBoxes`. -/
theorem updateCache_fields (cfg : Config) (image : Image) (bodies : List Body) (st : MNState) :
    (updateCache cfg image bodies st).skipped = st.skipped
      ∧ (updateCache cfg image bodies st).kbuf = st.kbuf := by
  cases h : cfg.skipFrame <;> simp [updateCache, h]

/-- The counter the full-frame guard actually tests is the incremented one. -/
theorem runCached_skipped (cfg : Config) (image : Image) (or : Oracle) (st : MNState) :
    (runCached cfg image or (stepSt2 cfg st)).2.skipped = st.skipped + 1 := by
  rw [runCached, (runCachedList_state cfg image or _ _).2]
  exact (stepSt2_fields cfg st).1

/-- `predict` when the full-frame guard fires. -/
theorem predictStep_fire (cfg : Config) (image : Image) (or : Oracle) (st : MNState)
    (h : fullCond cfg (runCached cfg image or (stepSt2 cfg st)).1.length (st.skipped + 1)) :
    predictStep true cfg image or st =
      ((runFull cfg image or (runCached cfg image or (stepSt2 cfg st)).2).1,
       updateCache cfg image (runFull cfg image or (runCached cfg image or (stepSt2 cfg st)).2).1
         (runFull cfg image or (runCached cfg image or (stepSt2 cfg st)).2).2) := by
  rw [predictStep]
  have hs := runCached_skipped cfg image or st
  simp only [Bool.true_eq_false, if_false]
  rw [if_pos (by rw [hs]; exact h)]

/-- `predict` when the full-frame guard does not fire. -/
theorem predictStep_nofire (cfg : Config) (image : Image) (or : Oracle) (st : MNState)
    (h : ¬ fullCond cfg (runCached cfg image or (stepSt2 cfg st)).1.length (st.skipped + 1)) :
    predictStep true cfg image or st =
      ((runCached cfg image or (stepSt2 cfg st)).1,
       updateCache cfg image (runCached cfg image or (stepSt2 cfg st)).1
         (runCached cfg image or (stepSt2 cfg st)).2) := by
  rw [predictStep]
  have hs := runCached_skipped cfg image or st
  simp only [Bool.true_eq_false, if_false]
  rw [if_neg (by rw [hs]; exact h)]

/-- The counter after a frame: reset to `0` exactly when the guard fired,
otherwise the incremented value. -/
theorem predictStep_skipped (cfg : Config) (image : Image) (or : Oracle) (st : MNState) :
    (predictStep true cfg image or st).2.skipped =
      if fullCond cfg (runCached cfg image or (stepSt2 cfg st)).1.length (st.skipped + 1)
      then 0 else st.skipped + 1 := by
  by_cases h : fullCond cfg (runCached cfg image or (stepSt2 cfg st)).1.length (st.skipped + 1)
  · rw [predictStep_fire cfg image or st h, if_pos h]
    simp only [(updateCache_fields _ _ _ _).1]
    rfl
  · rw [predictStep_nofire cfg image or st h, if_neg h]
    simp only [(updateCache_fields _ _ _ _).1]
    exact runCached_skipped cfg image or st

/-! ### Decoder output shape -/

/-- `parseSinglePose` returns exactly the one shared-buffer body. -/
theorem parseSinglePose_fst (res : List (ℚ × ℚ × ℚ)) (cfg : Config) (image : Image)
    (inputBox : YXBox) (st : MNState) :
    (parseSinglePose res cfg image inputBox st).1 = [singleBody res cfg image inputBox] := rfl

/-- Every body returned by `parseMultiPose` was emitted by the slot loop. -/
theorem mem_parseMultiPose {b : Body} {res : List (List ℚ)} {cfg : Config} {image : Image}
    {inputBox : YXBox} {st : MNState} (h : b ∈ (parseMultiPose res cfg image inputBox st).1) :
    b ∈ multiEmitted cfg image inputBox 0 res := by
  have h1 : b ∈ sortBodies (multiLoop cfg image inputBox 0 res [] st.kbuf).1 :=
    (List.take_sublist _ _).mem h
  have h2 := (sortBodies_perm _).mem_iff.mp h1
  rwa [multiLoop_fst, List.nil_append] at h2

/-- Every body returned by `parseMultiPose` owns a copy of some slot's
keypoints: it does not alias the shared scratch buffer. -/
theorem parseMultiPose_own {b : Body} {res : List (List ℚ)} {cfg : Config} {image : Image}
    {inputBox : YXBox} {st : MNState} (h : b ∈ (parseMultiPose res cfg image inputBox st).1) :
    ∃ kpt, b.keypoints = KRef.own (decodeSlot kpt cfg image inputBox) := by
  rcases (mem_multiEmitted cfg image inputBox res 0 b).mp (mem_parseMultiPose h) with
    ⟨i, _, _, rfl⟩
  exact ⟨res.getD i [], rfl⟩

/-- With at least one detection allowed, both decoders respect the cap and
return a descending-score list. -/
theorem decodeRes_capped (r : RawRes) (cfg : Config) (image : Image) (inputBox : YXBox)
    (st : MNState) (h : 1 ≤ cfg.maxDetected) :
    (decodeRes r cfg image inputBox st).1.length ≤ cfg.maxDetected
      ∧ (decodeRes r cfg image inputBox st).1.Pairwise scoreGe := by
  cases r with
  | single k =>
    refine ⟨?_, ?_⟩
    · simpa [decodeRes, parseSinglePose_fst] using h
    · simp [decodeRes, parseSinglePose_fst]
  | multi s =>
    refine ⟨?_, ?_⟩
    · simp [decodeRes, parseMultiPose]
    · exact take_sorted _ _ (sortBodies_sorted _)

/-! ### The keypoint-score invariant carried through a frame -/

/-- One decode call preserves the invariant: the fresh bodies are good, and the
rewritten shared buffer keeps the old shared-reference bodies good. -/
theorem decodeRes_good {cfg : Config} {bs : List Body} {st : MNState}
    (r : RawRes) (image : Image) (inputBox : YXBox)
    (hacc : GoodAcc cfg (bs, st)) :
    GoodAcc cfg (bs ++ (decodeRes r cfg image inputBox st).1,
      (decodeRes r cfg image inputBox st).2) := by
  cases r with
  | single k =>
    intro b hb kp hkp
    rcases List.mem_append.mp hb with hb' | hb'
    · cases hkref : b.keypoints with
      | shared =>
        rw [hkref] at hkp
        exact (mem_singleKpts_score hkp).1
      | own l =>
        have := hacc b hb' kp
        rw [hkref] at this hkp
        exact this hkp
    · have hb1 : b = singleBody k cfg image inputBox := by
        simpa [decodeRes, parseSinglePose_fst] using hb'
      rw [hb1] at hkp
      exact (mem_singleKpts_score hkp).1
  | multi s =>
    intro b hb kp hkp
    rcases List.mem_append.mp hb with hb' | hb'
    · cases hkref : b.keypoints with
      | shared =>
        rw [hkref] at hkp
        have hkb := multiLoop_snd cfg image inputBox s 0 [] st.kbuf
        simp only [decodeRes, parseMultiPose] at hkp
        rcases hkb with heq | ⟨kpt, heq⟩
        · rw [heq] at hkp
          have := hacc b hb' kp
          rw [hkref] at this
          exact this hkp
        · rw [heq] at hkp
          exact (mem_decodeSlot_score hkp).1
      | own l =>
        have := hacc b hb' kp
        rw [hkref] at this hkp
        exact this hkp
    · rcases parseMultiPose_own hb' with ⟨kpt, hkref⟩
      rw [hkref] at hkp
      exact (mem_decodeSlot_score hkp).1

/-- The cached-region loop preserves the invariant. -/
theorem runCachedList_good {cfg : Config} (image : Image) (or : Oracle) :
    ∀ (boxes : List YXBox) (acc : List Body × MNState),
      GoodAcc cfg acc → GoodAcc cfg (runCachedList cfg image or boxes acc) := by
  intro boxes
  induction boxes with
  | nil => intro acc h; exact h
  | cons b rest ih =>
    intro acc h
    rw [runCachedList]
    exact ih _ (decodeRes_good (or.cropRes b) image b h)

/-! ### Remaining helper lemmas -/

/-- A single-pose raw output carries its keypoint triples. -/
theorem isSingle_elim {r : RawRes} (h : r.isSingle = true) :
    ∃ k, r = RawRes.single k := by
  cases r with
  | single k => exact ⟨k, rfl⟩
  | multi s => simp [RawRes.isSingle] at h

/-- The properties of the one body `parseSinglePose` builds: id `0`, score the
clamped maximum of the retained keypoints' scores. -/
theorem singleBody_props (k : List (ℚ × ℚ × ℚ)) (cfg : Config) (image : Image)
    (inputBox : YXBox) (hm : 0 ≤ cfg.minConfidence) :
    (singleBody k cfg image inputBox).id = 0
      ∧ (∀ kp ∈ singleKpts k cfg image inputBox,
          kp.score ≤ (singleBody k cfg image inputBox).score)
      ∧ (singleKpts k cfg image inputBox = [] → (singleBody k cfg image inputBox).score = 0)
      ∧ (singleKpts k cfg image inputBox ≠ [] →
          ∃ kp ∈ singleKpts k cfg image inputBox,
            (singleBody k cfg image inputBox).score = kp.score) := by
  refine ⟨rfl, ?_, ?_, ?_⟩
  · intro kp hkp
    exact maxKptScore_ge hkp
  · intro h
    show maxKptScore _ = 0
    rw [h, maxKptScore_nil]
  · intro hne
    exact maxKptScore_attained hne (fun kp hkp => (mem_singleKpts_score hkp).2 hm)

/-- `parseMultiPose` is the capped sort of the emitted bodies. -/
theorem parseMultiPose_eq_take (res : List (List ℚ)) (cfg : Config) (image : Image)
    (inputBox : YXBox) (st : MNState) :
    (parseMultiPose res cfg image inputBox st).1
      = (sortBodies (multiEmitted cfg image inputBox 0 res)).take cfg.maxDetected := by
  simp [parseMultiPose, multiLoop_fst]

/-- In a sorted list, everything outside a front truncation is dominated by
everything inside it. -/
theorem take_dominates {l : List Body} {n : Nat} (hs : l.Pairwise scoreGe) {b : Body}
    (hb : b ∈ l) (hnb : b ∉ l.take n) : ∀ c ∈ l.take n, b.score ≤ c.score := by
  have hsplit : l.take n ++ l.drop n = l := List.take_append_drop n l
  have hdrop : b ∈ l.drop n := by
    rcases List.mem_append.mp (by rw [hsplit]; exact hb) with h | h
    · exact absurd h hnb
    · exact h
  have hp : (l.take n ++ l.drop n).Pairwise scoreGe := by rw [hsplit]; exact hs
  intro c hc
  exact (List.pairwise_append.mp hp).2.2 c hc b hdrop

/-- Counting frames without a refresh: starting from a fresh counter, as long
as at most `skipFrames` frames have elapsed the guard cannot fire, so the
counter just counts the frames. -/
theorem iterFrames_skipped (cfg : Config) (image : Image) :
    ∀ (ors : List Oracle) (st : MNState) (k : Nat), st.skipped = k →
      k + ors.length ≤ cfg.skipFrames → (iterFrames cfg image ors st).skipped = k + ors.length := by
  intro ors
  induction ors with
  | nil => intro st k hk _; simpa [iterFrames] using hk
  | cons o rest ih =>
    intro st k hk hlen
    have hnof : ¬ fullCond cfg (runCached cfg image o (stepSt2 cfg st)).1.length (st.skipped + 1) := by
      intro hfc
      have := hfc.2
      rw [hk] at this
      simp only [List.length_cons] at hlen
      omega
    have hstep : (predictStep true cfg image o st).2.skipped = k + 1 := by
      rw [predictStep_skipped, if_neg hnof, hk]
    have : iterFrames cfg image (o :: rest) st
        = iterFrames cfg image rest (predictStep true cfg image o st).2 := rfl
    rw [this, ih _ (k + 1) hstep (by simp only [List.length_cons] at hlen; omega)]
    simp only [List.length_cons]
    omega

/-! ## The claims -/

/-- Helper: the enclosure of an empty keypoint list. -/
theorem createBox_nil : createBox [] = (infJBox, infJBox) := rfl

/-- C9: `CoordinateMapper` is the pure unclamped affine map
`positionRaw.x = (x1 - x0) * kptX + x0`, `positionRaw.y = (y1 - y0) * kptY + y0`,
`position = round(positionRaw * imageDimensions)`; with the full-frame unit
reference box `(0, 0, 1, 1)` the pixel position is exactly
`round(normalizedKeypoint * imageDims)`. -/
theorem C9_coordinate_mapper (b : YXBox) (ky kx w h : ℚ) :
    (mapCoord b ky kx { width := w, height := h }).1
        = ((b.x1 - b.x0) * kx + b.x0, (b.y1 - b.y0) * ky + b.y0)
    ∧ (mapCoord b ky kx { width := w, height := h }).2
        = (jsRound (w * ((b.x1 - b.x0) * kx + b.x0)), jsRound (h * ((b.y1 - b.y0) * ky + b.y0)))
    ∧ (mapCoord unitBox ky kx { width := w, height := h }).1 = (kx, ky)
    ∧ (mapCoord unitBox ky kx { width := w, height := h }).2
        = (jsRound (w * kx), jsRound (h * ky)) := by
  refine ⟨rfl, rfl, ?_, ?_⟩
  · show ((1 - 0) * kx + 0, (1 - 0) * ky + 0) = (kx, ky)
    norm_num
  · show (jsRound (w * ((1 - 0) * kx + 0)), jsRound (h * ((1 - 0) * ky + 0)))
        = (jsRound (w * kx), jsRound (h * ky))
    norm_num

/-- C2 (amended): a decode that retains zero keypoints produces the degenerate
box `[Infinity, Infinity, -Infinity, -Infinity]` (JavaScript `Math.min`/`Math.max`
over an empty spread), not the zero-size box at the origin, in both pixel and
normalized space, for both decoders. -/
theorem C2_zero_keypoint_box :
    (∀ (res : List (ℚ × ℚ × ℚ)) (cfg : Config) (image : Image) (inputBox : YXBox) (st : MNState),
      singleKpts res cfg image inputBox = [] →
        ((parseSinglePose res cfg image inputBox st).1.map (fun b => (b.box, b.boxRaw)))
          = [(infJBox, infJBox)])
    ∧ (∀ (cfg : Config) (image : Image) (inputBox : YXBox) (id : Nat) (kpt : List ℚ),
      decodeSlot kpt cfg image inputBox = [] →
        (multiBody cfg image inputBox id kpt).box = infJBox
          ∧ (multiBody cfg image inputBox id kpt).boxRaw = infJBox) := by
  constructor
  · intro res cfg image inputBox st h
    rw [parseSinglePose_fst, List.map_cons, List.map_nil]
    show [((createBox (singleKpts res cfg image inputBox)).1,
           (createBox (singleKpts res cfg image inputBox)).2)] = [(infJBox, infJBox)]
    rw [h, createBox_nil]
  · intro cfg image inputBox id kpt h
    constructor
    · show (createBox (decodeSlot kpt cfg image inputBox)).1 = infJBox
      rw [h, createBox_nil]
    · show (createBox (decodeSlot kpt cfg image inputBox)).2 = infJBox
      rw [h, createBox_nil]

/-- C2 counterexample: a single-pose decode whose only keypoint fails the
filter yields the infinite degenerate box, which is not `(0, 0, 0, 0)`. -/
theorem C2_cex :
    ((parseSinglePose resC2 cfgC2 img100 unitBox initState).1.map (fun b => b.box)) = [infJBox]
    ∧ infJBox ≠ (JNum.fin 0, JNum.fin 0, JNum.fin 0, JNum.fin 0) := by
  constructor
  · decide
  · decide

/-- C2 witness: the amended theorem applied at the concrete empty-keypoint decode. -/
theorem C2_witness :
    singleKpts resC2 cfgC2 img100 unitBox = []
    ∧ ((parseSinglePose resC2 cfgC2 img100 unitBox initState).1.map (fun b => (b.box, b.boxRaw)))
        = [(infJBox, infJBox)] :=
  ⟨by decide, C2_zero_keypoint_box.1 resC2 cfgC2 img100 unitBox initState (by decide)⟩

/-- C3 (amended): every keypoint of every pose in every returned sequence has a
raw decode-time score strictly above the threshold, so its stored
two-decimal-rounded score strictly exceeds `minConfidence - 1/200`; the stored
value itself can fall below the threshold. -/
theorem C3_rounded_scores (loaded : Bool) (cfg : Config) (image : Image) (or : Oracle)
    (st : MNState) (b : Body) (kp : Keypoint)
    (hb : b ∈ (predictStep loaded cfg image or st).1)
    (hkp : kp ∈ derefK (predictStep loaded cfg image or st).2.kbuf b.keypoints) :
    cfg.minConfidence - 1 / 200 < kp.score := by
  have hnil : GoodAcc cfg ([], (runCached cfg image or (stepSt2 cfg st)).2) :=
    fun b hb => absurd hb (List.not_mem_nil b)
  cases loaded with
  | false => simp [predictStep] at hb
  | true =>
    by_cases hfc : fullCond cfg (runCached cfg image or (stepSt2 cfg st)).1.length
        (st.skipped + 1)
    · rw [predictStep_fire cfg image or st hfc] at hb hkp
      have hg := decodeRes_good or.fullRes image unitBox hnil
      simp only [(updateCache_fields _ _ _ _).2] at hkp
      have hb' : b ∈ [] ++ (decodeRes or.fullRes cfg image unitBox
          (runCached cfg image or (stepSt2 cfg st)).2).1 := by
        simpa [runFull] using hb
      have hkp' : kp ∈ derefK (decodeRes or.fullRes cfg image unitBox
          (runCached cfg image or (stepSt2 cfg st)).2).2.kbuf b.keypoints := by
        simpa [runFull] using hkp
      exact hg b hb' kp hkp'
    · rw [predictStep_nofire cfg image or st hfc] at hb hkp
      have hnil2 : GoodAcc cfg ([], stepSt2 cfg st) :=
        fun b hb => absurd hb (List.not_mem_nil b)
      have hg := runCachedList_good image or (stepSt2 cfg st).cachedBoxes
        ([], stepSt2 cfg st) hnil2
      simp only [(updateCache_fields _ _ _ _).2] at hkp
      exact hg b hb kp hkp

/-- C3 counterexample: with threshold `361/1000`, a keypoint of raw score
`3612/10000` is retained, but its stored rounded score `9/25 = 0.36` does not
exceed the threshold. -/
theorem C3_cex :
    ((predictStep true cfgC3 img100 orC3 initState).1.map (fun b =>
        (derefK (predictStep true cfgC3 img100 orC3 initState).2.kbuf b.keypoints).map
          (fun kp => kp.score)))
      = [[9/25]]
    ∧ ¬ ((9/25 : ℚ) > cfgC3.minConfidence) := by
  constructor
  · decide
  · decide

/-- C3 witness: the amended bound instantiated at a concrete returned keypoint. -/
theorem C3_witness :
    bW ∈ (predictStep true cfgW img100 orW initState).1
    ∧ kpW ∈ derefK (predictStep true cfgW img100 orW initState).2.kbuf bW.keypoints
    ∧ cfgW.minConfidence - 1 / 200 < kpW.score :=
  ⟨by decide, by decide,
   C3_rounded_scores true cfgW img100 orW initState bW kpW (by decide) (by decide)⟩

/-- C4 (amended): multi-pose results carry their own fresh copy of the decoded
keypoints, unchanged by any later decode; single-pose results instead alias the
shared scratch buffer, so a later decode call mutates a previously returned
single-pose result's keypoint sequence. -/
theorem C4_multi_fresh (res : List (List ℚ)) (cfg : Config) (image : Image)
    (inputBox : YXBox) (st : MNState) (b : Body)
    (hb : b ∈ (parseMultiPose res cfg image inputBox st).1) :
    ∃ l, b.keypoints = KRef.own l ∧ ∀ kbuf : List Keypoint, derefK kbuf b.keypoints = l := by
  rcases parseMultiPose_own hb with ⟨kpt, hk⟩
  exact ⟨decodeSlot kpt cfg image inputBox, hk, fun kbuf => by rw [hk]; rfl⟩

/-- C4 counterexample: the body returned by a single-pose decode observes one
keypoint, and observes zero keypoints for the same reference after a later
single-pose decode call rewrites the shared buffer. -/
theorem C4_cex :
    ((parseSinglePose resC4a cfgC2 img100 unitBox initState).1.map (fun b =>
        (derefK (parseSinglePose resC4a cfgC2 img100 unitBox initState).2.kbuf
          b.keypoints).length))
      = [1]
    ∧ ((parseSinglePose resC4a cfgC2 img100 unitBox initState).1.map (fun b =>
        (derefK (parseSinglePose resC4b cfgC2 img100 unitBox
            (parseSinglePose resC4a cfgC2 img100 unitBox initState).2).2.kbuf
          b.keypoints).length))
      = [0] := by
  constructor
  · decide
  · decide

/-- C4 witness: the amended theorem instantiated at a concrete multi-pose body. -/
theorem C4_witness :
    bW4 ∈ (parseMultiPose [fullSlot (9/10)] cfgC1 img100 unitBox initState).1
    ∧ ∃ l, bW4.keypoints = KRef.own l
        ∧ ∀ kbuf : List Keypoint, derefK kbuf bW4.keypoints = l :=
  ⟨by decide,
   C4_multi_fresh [fullSlot (9/10)] cfgC1 img100 unitBox initState bW4 (by decide)⟩

/-- C5 (amended): in multi-pose decode a slot emits a pose if and only if its
two-decimal-rounded aggregate score (read at fixed offset 55 of the slot)
exceeds the threshold — not the raw aggregate itself; each emitted pose has
`id` equal to its slot index, score equal to the rounded aggregate, and its own
keypoint copy; the returned list is the descending-score stable sort truncated
to the configured maximum, so it is sorted, capped, and dominates every emitted
pose it dropped. -/
theorem C5_multi_decode (res : List (List ℚ)) (cfg : Config) (image : Image)
    (inputBox : YXBox) (st : MNState) :
    (∀ i, i < res.length →
      ((∃ b ∈ multiEmitted cfg image inputBox 0 res, b.id = i)
        ↔ cfg.minConfidence < round2 ((res.getD i []).getD 55 0)))
    ∧ (∀ b ∈ multiEmitted cfg image inputBox 0 res,
        b.id < res.length ∧ b.score = round2 ((res.getD b.id []).getD 55 0)
          ∧ b.keypoints = KRef.own (decodeSlot (res.getD b.id []) cfg image inputBox))
    ∧ (parseMultiPose res cfg image inputBox st).1
        = (sortBodies (multiEmitted cfg image inputBox 0 res)).take cfg.maxDetected
    ∧ (parseMultiPose res cfg image inputBox st).1.Pairwise scoreGe
    ∧ (parseMultiPose res cfg image inputBox st).1.length ≤ cfg.maxDetected
    ∧ (∀ b ∈ multiEmitted cfg image inputBox 0 res,
        b ∉ (parseMultiPose res cfg image inputBox st).1 →
        ∀ c ∈ (parseMultiPose res cfg image inputBox st).1, b.score ≤ c.score) := by
  refine ⟨?_, ?_, parseMultiPose_eq_take res cfg image inputBox st, ?_, ?_, ?_⟩
  · intro i hi
    constructor
    · rintro ⟨b, hb, hid⟩
      rcases (mem_multiEmitted cfg image inputBox res 0 b).mp hb with ⟨j, hj, hcond, rfl⟩
      have : j = i := by
        have : (multiBody cfg image inputBox (0 + j) (res.getD j [])).id = 0 + j := rfl
        omega
      rwa [this] at hcond
    · intro hcond
      exact ⟨multiBody cfg image inputBox (0 + i) (res.getD i []),
        (mem_multiEmitted cfg image inputBox res 0 _).mpr ⟨i, hi, hcond, rfl⟩,
        by show 0 + i = i; omega⟩
  · intro b hb
    rcases (mem_multiEmitted cfg image inputBox res 0 b).mp hb with ⟨j, hj, hcond, rfl⟩
    have hid : (multiBody cfg image inputBox (0 + j) (res.getD j [])).id = j := by
      show 0 + j = j; omega
    refine ⟨by rwa [hid], by rw [hid] ; rfl, by rw [hid] ; rfl⟩
  · rw [parseMultiPose_eq_take]
    exact take_sorted _ _ (sortBodies_sorted _)
  · rw [parseMultiPose_eq_take]
    simp
  · intro b hb hnb c hc
    rw [parseMultiPose_eq_take] at hnb hc
    have hbs : b ∈ sortBodies (multiEmitted cfg image inputBox 0 res) :=
      (sortBodies_perm _).mem_iff.mpr hb
    exact take_dominates (sortBodies_sorted _) hbs hnb c hc

/-- C5 counterexample: with threshold `2995/10000`, the slot with raw aggregate
`149/500 = 0.298` fails the raw filter, yet a pose is emitted for it (the
rounded aggregate `3/10` passes), and the emitted pose's score `3/10` is not
the raw aggregate score. -/
theorem C5_cex :
    ((parseMultiPose resC5 cfgC5 img100 unitBox initState).1.map (fun b => (b.id, b.score)))
      = [(0, 3/10)]
    ∧ (resC5.getD 0 []).getD 55 0 = 149/500
    ∧ ¬ ((resC5.getD 0 []).getD 55 0 > cfgC5.minConfidence) := by
  refine ⟨by decide, by decide, by decide⟩

/-- C5 witness: the emission criterion instantiated at the concrete slot. -/
theorem C5_witness :
    0 < resC5.length
    ∧ (∃ b ∈ multiEmitted cfgC5 img100 unitBox 0 resC5, b.id = 0) :=
  ⟨by decide,
   ((C5_multi_decode resC5 cfgC5 img100 unitBox initState).1 0 (by decide)).mpr (by decide)⟩

/-- C10: on the very first frame after module load (counter at
`Number.MAX_SAFE_INTEGER`, empty cache), `predict` with a loaded model and a
valid configuration (at least one detection allowed, refresh threshold a safe
integer) always takes the full-frame branch, for either tracking flag: the
guard holds, the returned list is exactly the full-frame decode, and the
counter resets to 0. -/
theorem C10_first_frame (cfg : Config) (image : Image) (or : Oracle)
    (hmax : 1 ≤ cfg.maxDetected) (hsf : cfg.skipFrames ≤ maxSafeInteger) :
    fullCond cfg (runCached cfg image or (stepSt2 cfg initState)).1.length
        (initState.skipped + 1)
    ∧ (predictStep true cfg image or initState).1
        = (decodeRes or.fullRes cfg image unitBox
            (runCached cfg image or (stepSt2 cfg initState)).2).1
    ∧ (predictStep true cfg image or initState).2.skipped = 0 := by
  have hboxes : (stepSt2 cfg initState).cachedBoxes = [] := by
    rw [(stepSt2_fields cfg initState).2.2]
    cases h : cfg.skipFrame
    · simp
    · simp [initState]
  have hrc : runCached cfg image or (stepSt2 cfg initState)
      = ([], stepSt2 cfg initState) := by
    rw [runCached, hboxes]
    rfl
  have hfc : fullCond cfg (runCached cfg image or (stepSt2 cfg initState)).1.length
      (initState.skipped + 1) := by
    rw [hrc]
    constructor
    · show (0 : Nat) ≠ cfg.maxDetected
      omega
    · show cfg.skipFrames < initState.skipped + 1
      have : initState.skipped = maxSafeInteger := rfl
      omega
  refine ⟨hfc, ?_, ?_⟩
  · rw [predictStep_fire cfg image or initState hfc]
    rfl
  · rw [predictStep_skipped, if_pos hfc]

/-- C10 witness: the first-frame theorem at a concrete configuration. -/
theorem C10_witness : (predictStep true cfgW img100 orW initState).2.skipped = 0 :=
  (C10_first_frame cfgW img100 orW (by decide) (by decide)).2.2

/-- C7: the full-frame branch runs iff the poses accumulated from cached-region
inference are not exactly the configured maximum and the (incremented)
staleness counter exceeds the refresh threshold; when it runs it replaces the
accumulated results with the full-frame decode, clears the cached regions and
resets the counter to 0 (observable as final counter 0); and after a
full-frame pass the guard stays silent for the next `skipFrames` frames, the
counter simply counting them. -/
theorem C7_refresh_guard (cfg : Config) (image : Image) (or : Oracle) (st : MNState) :
    ((predictStep true cfg image or st).2.skipped = 0
      ↔ fullCond cfg (runCached cfg image or (stepSt2 cfg st)).1.length (st.skipped + 1))
    ∧ (fullCond cfg (runCached cfg image or (stepSt2 cfg st)).1.length (st.skipped + 1) →
        (predictStep true cfg image or st).1
            = (decodeRes or.fullRes cfg image unitBox
                (runCached cfg image or (stepSt2 cfg st)).2).1
          ∧ (runFull cfg image or (runCached cfg image or (stepSt2 cfg st)).2).2.cachedBoxes = []
          ∧ (runFull cfg image or (runCached cfg image or (stepSt2 cfg st)).2).2.skipped = 0)
    ∧ (st.skipped = 0 → ∀ ors : List Oracle, ors.length ≤ cfg.skipFrames →
        (iterFrames cfg image ors st).skipped = ors.length) := by
  refine ⟨?_, ?_, ?_⟩
  · rw [predictStep_skipped]
    constructor
    · intro h
      by_contra hfc
      rw [if_neg hfc] at h
      omega
    · intro hfc
      rw [if_pos hfc]
  · intro hfc
    refine ⟨?_, rfl, rfl⟩
    rw [predictStep_fire cfg image or st hfc]
    rfl
  · intro h0 ors hlen
    have := iterFrames_skipped cfg image ors st 0 h0 (by omega)
    omega

/-- C7 witness: the firing direction of the guard at a concrete first frame. -/
theorem C7_witness : (predictStep true cfgC1 img100 orC1 initState).2.skipped = 0 :=
  (C7_refresh_guard cfgC1 img100 orC1 initState).1.mpr (by decide)

/-- C1 (amended): with at least one detection allowed, whenever a frame's
result comes from a single decode — the full-frame branch fired (replacing any
accumulation), or at most one cached region was held — the returned sequence
has length at most `maxDetected` and is in non-increasing score order (the
stable descending sort).  The cap and ordering do NOT hold for frames that
concatenate two or more cached-region inferences. -/
theorem C1_cap_amended (loaded : Bool) (cfg : Config) (image : Image) (or : Oracle)
    (st : MNState) (hmax : 1 ≤ cfg.maxDetected)
    (h : fullCond cfg (runCached cfg image or (stepSt2 cfg st)).1.length (st.skipped + 1)
          ∨ (stepSt2 cfg st).cachedBoxes.length ≤ 1) :
    (predictStep loaded cfg image or st).1.length ≤ cfg.maxDetected
    ∧ (predictStep loaded cfg image or st).1.Pairwise scoreGe := by
  cases loaded with
  | false =>
    constructor
    · simp [predictStep]
    · simp [predictStep]
  | true =>
    by_cases hfc : fullCond cfg (runCached cfg image or (stepSt2 cfg st)).1.length
        (st.skipped + 1)
    · rw [predictStep_fire cfg image or st hfc]
      have hcap := decodeRes_capped or.fullRes cfg image unitBox
        (runCached cfg image or (stepSt2 cfg st)).2 hmax
      exact hcap
    · rcases h with h | hcb
      · exact absurd h hfc
      · rw [predictStep_nofire cfg image or st hfc]
        rw [runCached] at *
        rcases hb : (stepSt2 cfg st).cachedBoxes with _ | ⟨bx, rest⟩
        · constructor
          · simp [runCachedList]
          · simp [runCachedList]
        · cases rest with
          | nil =>
            have hcap := decodeRes_capped (or.cropRes bx) cfg image bx
              (stepSt2 cfg st) hmax
            constructor
            · simpa [runCachedList] using hcap.1
            · simpa [runCachedList] using hcap.2
          | cons b2 rest2 =>
            rw [hb] at hcb
            simp at hcb
/-- C1 counterexample: starting from load state, a full multi-pose frame caches
two regions; the next frame concatenates two cached-region decodes and returns
4 poses with scores `[9/10, 3/10, 9/10, 3/10]` — more than `maxDetected = 2`
and not in descending order. -/
theorem C1_cex :
    (predictStep true cfgC1 img100 orC1 (predictStep true cfgC1 img100 orC1 initState).2).1.length
      = 4
    ∧ cfgC1.maxDetected = 2
    ∧ ((predictStep true cfgC1 img100 orC1
        (predictStep true cfgC1 img100 orC1 initState).2).1.map (fun b => b.score))
      = [9/10, 3/10, 9/10, 3/10] := by
  refine ⟨by decide, by decide, by decide⟩

/-- C1 witness: the amended cap at a concrete full-frame-firing frame. -/
theorem C1_witness :
    (predictStep true cfgC1 img100 orC1 initState).1.length ≤ cfgC1.maxDetected
    ∧ (predictStep true cfgC1 img100 orC1 initState).1.Pairwise scoreGe :=
  C1_cap_amended true cfgC1 img100 orC1 initState (by decide) (Or.inl (by decide))

/-- Helper: step 5's cache rewrite, by tracking flag. -/
theorem updateCache_spec (cfg : Config) (image : Image) (bodies : List Body) (st : MNState) :
    (cfg.skipFrame = true →
      (updateCache cfg image bodies st).cachedBoxes
        = (bodies.filter (fun b => 10 < (derefK st.kbuf b.keypoints).length)).map
            (fun b => scaleBox ((derefK st.kbuf b.keypoints).map (fun kp => kp.position))
              (3 / 2) (image.width, image.height)))
    ∧ (cfg.skipFrame = false → (updateCache cfg image bodies st).cachedBoxes = st.cachedBoxes) := by
  constructor
  · intro h
    simp [updateCache, h]
  · intro h
    simp [updateCache, h]

/-- C8 (amended): with tracking enabled, after a frame the cached regions are
exactly the scaled enclosures of the returned poses that kept strictly more
than 10 keypoints (not "at least 10"), each scaled by 1.5 against the image's
pixel dimensions in normalized `(y0, x0, y1, x1)` form; their count is the
count of such poses.  With tracking disabled the cached regions are empty
regardless of prior state. -/
theorem C8_cache_amended (cfg : Config) (image : Image) (or : Oracle) (st : MNState) :
    (cfg.skipFrame = true →
      (predictStep true cfg image or st).2.cachedBoxes
        = ((predictStep true cfg image or st).1.filter (fun b =>
            10 < (derefK (predictStep true cfg image or st).2.kbuf b.keypoints).length)).map
            (fun b => scaleBox
              ((derefK (predictStep true cfg image or st).2.kbuf b.keypoints).map
                (fun kp => kp.position)) (3 / 2) (image.width, image.height))
      ∧ (predictStep true cfg image or st).2.cachedBoxes.length
          = ((predictStep true cfg image or st).1.filter (fun b =>
              10 < (derefK (predictStep true cfg image or st).2.kbuf b.keypoints).length)).length)
    ∧ (cfg.skipFrame = false → (predictStep true cfg image or st).2.cachedBoxes = []) := by
  by_cases hfc : fullCond cfg (runCached cfg image or (stepSt2 cfg st)).1.length (st.skipped + 1)
  · rw [predictStep_fire cfg image or st hfc]
    constructor
    · intro h
      simp only [(updateCache_fields _ _ _ _).2]
      refine ⟨(updateCache_spec cfg image _ _).1 h, ?_⟩
      rw [(updateCache_spec cfg image _ _).1 h, List.length_map]
    · intro h
      rw [(updateCache_spec cfg image _ _).2 h]
      rfl
  · rw [predictStep_nofire cfg image or st hfc]
    constructor
    · intro h
      simp only [(updateCache_fields _ _ _ _).2]
      refine ⟨(updateCache_spec cfg image _ _).1 h, ?_⟩
      rw [(updateCache_spec cfg image _ _).1 h, List.length_map]
    · intro h
      rw [(updateCache_spec cfg image _ _).2 h]
      rw [runCached, (runCachedList_state cfg image or _ _).1]
      show (stepSt2 cfg st).cachedBoxes = []
      rw [(stepSt2_fields cfg st).2.2, h]
      rfl

/-- C8 counterexample: a frame whose only pose keeps exactly 10 keypoints
caches no region, although one pose has at least 10 keypoints. -/
theorem C8_cex :
    (predictStep true cfgC8 img100 orC8 initState).2.cachedBoxes.length = 0
    ∧ ((predictStep true cfgC8 img100 orC8 initState).1.filter (fun b =>
        10 ≤ (derefK (predictStep true cfgC8 img100 orC8 initState).2.kbuf
          b.keypoints).length)).length = 1 := by
  constructor
  · decide
  · decide

/-- C8 witness: the amended cache construction at a concrete tracked frame. -/
theorem C8_witness :
    (predictStep true cfgC8 img100 orC8 initState).2.cachedBoxes
      = ((predictStep true cfgC8 img100 orC8 initState).1.filter (fun b =>
          10 < (derefK (predictStep true cfgC8 img100 orC8 initState).2.kbuf
            b.keypoints).length)).map
          (fun b => scaleBox
            ((derefK (predictStep true cfgC8 img100 orC8 initState).2.kbuf b.keypoints).map
              (fun kp => kp.position)) (3 / 2) (img100.width, img100.height)) :=
  ((C8_cache_amended cfgC8 img100 orC8 initState).1 rfl).1

/-- Helper: the one body of a single-pose decode, observed against the buffer
that decode just wrote: id 0 and score the maximum of the retained keypoints'
scores (0 when none was retained). -/
theorem singleOut_mem (k : List (ℚ × ℚ × ℚ)) (cfg : Config) (image : Image) (ib : YXBox)
    (hm : 0 ≤ cfg.minConfidence) :
    ∀ b ∈ [singleBody k cfg image ib],
      b.id = 0
      ∧ (∀ kp ∈ derefK (singleKpts k cfg image ib) b.keypoints, kp.score ≤ b.score)
      ∧ (derefK (singleKpts k cfg image ib) b.keypoints = [] → b.score = 0)
      ∧ (derefK (singleKpts k cfg image ib) b.keypoints ≠ [] →
          ∃ kp ∈ derefK (singleKpts k cfg image ib) b.keypoints, b.score = kp.score) := by
  intro b hb
  have hb' : b = singleBody k cfg image ib := List.mem_singleton.mp hb
  subst hb'
  have hp := singleBody_props k cfg image ib hm
  exact ⟨hp.1, hp.2.1, hp.2.2.1, hp.2.2.2⟩

/-- C6: against a single-pose model (every raw output single-pose), from any
state with at most one cached region (an invariant this theorem also
preserves) and a nonnegative threshold, a frame returns at most one pose; it
returns none only when no inference ran at all (empty cache and silent guard);
and any returned pose has `id = 0` and score the maximum of its retained
keypoints' stored scores, 0 when it kept no keypoint. -/
theorem C6_single_pose (cfg : Config) (image : Image) (or : Oracle) (st : MNState)
    (hcrop : ∀ bx, (or.cropRes bx).isSingle = true) (hfull : or.fullRes.isSingle = true)
    (hcb : st.cachedBoxes.length ≤ 1) (hm : 0 ≤ cfg.minConfidence) :
    (predictStep true cfg image or st).1.length ≤ 1
    ∧ (predictStep true cfg image or st).2.cachedBoxes.length ≤ 1
    ∧ ((predictStep true cfg image or st).1 = [] →
        (stepSt2 cfg st).cachedBoxes = [] ∧ ¬ fullCond cfg 0 (st.skipped + 1))
    ∧ (∀ b ∈ (predictStep true cfg image or st).1,
        b.id = 0
        ∧ (∀ kp ∈ derefK (predictStep true cfg image or st).2.kbuf b.keypoints,
            kp.score ≤ b.score)
        ∧ (derefK (predictStep true cfg image or st).2.kbuf b.keypoints = [] → b.score = 0)
        ∧ (derefK (predictStep true cfg image or st).2.kbuf b.keypoints ≠ [] →
            ∃ kp ∈ derefK (predictStep true cfg image or st).2.kbuf b.keypoints,
              b.score = kp.score)) := by
  have hcb2 : (stepSt2 cfg st).cachedBoxes.length ≤ 1 := by
    rw [(stepSt2_fields cfg st).2.2]
    cases h : cfg.skipFrame
    · simp
    · simpa using hcb
  by_cases hfc : fullCond cfg (runCached cfg image or (stepSt2 cfg st)).1.length
      (st.skipped + 1)
  · -- the full-frame branch fires and replaces everything
    rcases isSingle_elim hfull with ⟨kf, hkf⟩
    rw [predictStep_fire cfg image or st hfc]
    have hrf1 : (runFull cfg image or (runCached cfg image or (stepSt2 cfg st)).2).1
        = [singleBody kf cfg image unitBox] := by
      rw [runFull, hkf]
      rfl
    have hrf2 : (runFull cfg image or (runCached cfg image or (stepSt2 cfg st)).2).2.kbuf
        = singleKpts kf cfg image unitBox := by
      rw [runFull, hkf]
      rfl
    have hrf3 : (runFull cfg image or (runCached cfg image or (stepSt2 cfg st)).2).2.cachedBoxes
        = [] := by
      rw [runFull]
    refine ⟨?_, ?_, ?_, ?_⟩
    · show (runFull cfg image or (runCached cfg image or (stepSt2 cfg st)).2).1.length ≤ 1
      rw [hrf1]
      simp
    · show (updateCache cfg image _ _).cachedBoxes.length ≤ 1
      cases h : cfg.skipFrame
      · rw [(updateCache_spec cfg image _ _).2 h, hrf3]
        simp
      · rw [(updateCache_spec cfg image _ _).1 h]
        rw [List.length_map]
        refine le_trans (List.length_filter_le _ _) ?_
        rw [hrf1]
        simp
    · intro h
      rw [hrf1] at h
      exact absurd h (List.cons_ne_nil _ _)
    · intro b hb
      have hbk : (updateCache cfg image
          (runFull cfg image or (runCached cfg image or (stepSt2 cfg st)).2).1
          (runFull cfg image or (runCached cfg image or (stepSt2 cfg st)).2).2).kbuf
          = singleKpts kf cfg image unitBox := by
        rw [(updateCache_fields _ _ _ _).2, hrf2]
      have hb' : b ∈ [singleBody kf cfg image unitBox] := by
        rw [← hrf1]
        exact hb
      have := singleOut_mem kf cfg image unitBox hm b hb'
      rw [show (updateCache cfg image
          (runFull cfg image or (runCached cfg image or (stepSt2 cfg st)).2).1
          (runFull cfg image or (runCached cfg image or (stepSt2 cfg st)).2).2).kbuf
          = singleKpts kf cfg image unitBox from hbk]
      exact this
  · -- no full-frame pass: the result is the cached-region accumulation
    rw [predictStep_nofire cfg image or st hfc]
    rcases h1 : (stepSt2 cfg st).cachedBoxes with _ | ⟨bx, rest⟩
    · -- empty cache: no inference at all
      have hrc : runCached cfg image or (stepSt2 cfg st) = ([], stepSt2 cfg st) := by
        rw [runCached, h1]
        rfl
      refine ⟨?_, ?_, ?_, ?_⟩
      · show (runCached cfg image or (stepSt2 cfg st)).1.length ≤ 1
        rw [hrc]
        simp
      · show (updateCache cfg image _ _).cachedBoxes.length ≤ 1
        cases h : cfg.skipFrame
        · rw [(updateCache_spec cfg image _ _).2 h, hrc, h1]
          simp
        · rw [(updateCache_spec cfg image _ _).1 h]
          rw [List.length_map]
          refine le_trans (List.length_filter_le _ _) ?_
          rw [hrc]
          simp
      · intro _
        refine ⟨rfl, ?_⟩
        rw [hrc] at hfc
        exact fun hx => hfc ⟨hx.1, hx.2⟩
      · intro b hb
        rw [show (runCached cfg image or (stepSt2 cfg st)).1 = [] from by rw [hrc]] at hb
        exact absurd hb (List.not_mem_nil b)
    · cases rest with
      | nil =>
        -- exactly one cached region, decoded single-pose
        rcases isSingle_elim (hcrop bx) with ⟨kc, hkc⟩
        have hrc : runCached cfg image or (stepSt2 cfg st)
            = ([singleBody kc cfg image bx],
               { stepSt2 cfg st with kbuf := singleKpts kc cfg image bx }) := by
          rw [runCached, h1, runCachedList, hkc]
          show runCachedList cfg image or []
              ([] ++ [singleBody kc cfg image bx],
               { stepSt2 cfg st with kbuf := singleKpts kc cfg image bx })
            = _
          rw [runCachedList, List.nil_append]
        refine ⟨?_, ?_, ?_, ?_⟩
        · show (runCached cfg image or (stepSt2 cfg st)).1.length ≤ 1
          rw [hrc]
          simp
        · show (updateCache cfg image _ _).cachedBoxes.length ≤ 1
          cases h : cfg.skipFrame
          · rw [(updateCache_spec cfg image _ _).2 h, hrc]
            show (stepSt2 cfg st).cachedBoxes.length ≤ 1
            exact hcb2
          · rw [(updateCache_spec cfg image _ _).1 h]
            rw [List.length_map]
            refine le_trans (List.length_filter_le _ _) ?_
            rw [hrc]
            simp
        · intro h
          rw [show (runCached cfg image or (stepSt2 cfg st)).1
              = [singleBody kc cfg image bx] from by rw [hrc]] at h
          exact absurd h (List.cons_ne_nil _ _)
        · intro b hb
          have hbk : (updateCache cfg image (runCached cfg image or (stepSt2 cfg st)).1
              (runCached cfg image or (stepSt2 cfg st)).2).kbuf
              = singleKpts kc cfg image bx := by
            rw [(updateCache_fields _ _ _ _).2, hrc]
          have hb' : b ∈ [singleBody kc cfg image bx] := by
            rw [show (runCached cfg image or (stepSt2 cfg st)).1
                = [singleBody kc cfg image bx] from by rw [hrc]] at hb
            exact hb
          have := singleOut_mem kc cfg image bx hm b hb'
          rw [hbk]
          exact this
      | cons b2 rest2 =>
        rw [h1] at hcb2
        simp at hcb2

/-- C6 witness: the single-pose frame contract at a concrete first frame. -/
theorem C6_witness :
    (predictStep true cfgW img100 orW initState).1.length ≤ 1
    ∧ (predictStep true cfgW img100 orW initState).2.cachedBoxes.length ≤ 1 := by
  have h := C6_single_pose cfgW img100 orW initState (fun _ => rfl) rfl (by decide) (by decide)
  exact ⟨h.1, h.2.1⟩
